import Mathlib

/-!
Verification development for the invoice-extraction browser extension
(field normalizer, currency bank-field schema, transfer-form validation,
heuristic PDF text recovery, background message dispatch).

The JavaScript source is embedded shallowly: strings are `String`/`List Char`,
loosely typed JSON values are `JVal`, fallible code returns `Except String`.
JavaScript regular-expression operations used by the source
(`/\s/g` removal, `/,/g` replacement, `trim()`, the parenthesized-run scan
`/\(([^)]{3,})\)/g` and the escape-pair replacements) are implemented
directly on `List Char`.
-/

namespace WiseSpec

/-- Character class of JavaScript `\s` (also the set stripped by
`String.prototype.trim`): ASCII whitespace, NBSP, and the Unicode
space separators / line terminators / BOM. -/
def jsWs (c : Char) : Bool :=
  c = ' ' || c = '\t' || c = '\n' || c.toNat = 0x0B || c.toNat = 0x0C ||
  c = '\r' || c.toNat = 0xA0 || c.toNat = 0x1680 ||
  (0x2000 ≤ c.toNat && c.toNat ≤ 0x200A) ||
  c.toNat = 0x2028 || c.toNat = 0x2029 || c.toNat = 0x202F ||
  c.toNat = 0x205F || c.toNat = 0x3000 || c.toNat = 0xFEFF

/-- The control bytes treated as binary/metadata by the PDF heuristic:
the regex class `[\x00-\x08\x0B\x0C\x0E-\x1F]`. -/
def isPdfCtrl (c : Char) : Bool :=
  c.toNat ≤ 0x08 || c.toNat = 0x0B || c.toNat = 0x0C ||
  (0x0E ≤ c.toNat && c.toNat ≤ 0x1F)

/-- JavaScript `str.replace(/\s/g, '')` on a character list. -/
def stripWsL (l : List Char) : List Char := l.filter (fun c => !jsWs c)

/-- JavaScript `str.replace(/\s/g, '')` on a string. -/
def stripWsS (s : String) : String := ⟨stripWsL s.data⟩

/-- JavaScript `str.replace(/,/g, '.')`. -/
def commaToDot (s : String) : String :=
  ⟨s.data.map (fun c => if c = ',' then '.' else c)⟩

/-- Character-wise uppercasing; models `String.prototype.toUpperCase`
(the source only feeds it ASCII currency codes, account types and IBANs). -/
def upperS (s : String) : String := ⟨s.data.map Char.toUpper⟩

/-- Leading-whitespace removal, the first half of `trim()`. -/
def trimLeadL (l : List Char) : List Char := l.dropWhile jsWs

/-- JavaScript `String.prototype.trim` on a character list. -/
def trimL (l : List Char) : List Char :=
  ((trimLeadL l).reverse.dropWhile jsWs).reverse

/-- JavaScript `String.prototype.trim` on a string. -/
def trimS (s : String) : String := ⟨trimL s.data⟩

/-- Whether `pat` occurs at the head of `l` (Boolean prefix test). -/
def leadMatch : List Char → List Char → Bool
  | [], _ => true
  | _ :: _, [] => false
  | p :: ps, c :: cs => p = c && leadMatch ps cs

/-- Whether `pat` occurs as a contiguous substring of `l`;
models JavaScript `String.prototype.includes`. -/
def occursIn (pat : List Char) : List Char → Bool
  | [] => leadMatch pat []
  | c :: rest => leadMatch pat (c :: rest) || occursIn pat rest

theorem leadMatch_iff (pat l : List Char) :
    leadMatch pat l = true ↔ ∃ s, l = pat ++ s := by
  induction pat generalizing l with
  | nil => simp [leadMatch]
  | cons p ps ih =>
    cases l with
    | nil => simp [leadMatch]
    | cons c cs =>
      simp only [leadMatch, Bool.and_eq_true, decide_eq_true_eq, ih]
      constructor
      · rintro ⟨rfl, s, rfl⟩; exact ⟨s, rfl⟩
      · rintro ⟨s, h⟩
        injection h with h1 h2
        exact ⟨h1.symm, s, h2⟩

theorem occursIn_iff (pat l : List Char) :
    occursIn pat l = true ↔ ∃ p s, l = p ++ pat ++ s := by
  induction l with
  | nil =>
    simp only [occursIn, leadMatch_iff]
    constructor
    · rintro ⟨s, h⟩
      exact ⟨[], s, by simpa using h⟩
    · rintro ⟨p, s, h⟩
      have hp : p = [] := by
        cases p with
        | nil => rfl
        | cons a as => simp at h
      subst hp
      exact ⟨s, by simpa using h⟩
  | cons c rest ih =>
    simp only [occursIn, Bool.or_eq_true, leadMatch_iff, ih]
    constructor
    · rintro (⟨s, h⟩ | ⟨p, s, h⟩)
      · exact ⟨[], s, by simpa using h⟩
      · exact ⟨c :: p, s, by simp [h]⟩
    · rintro ⟨p, s, h⟩
      cases p with
      | nil => exact Or.inl ⟨s, by simpa using h⟩
      | cons a as =>
        injection h with h1 h2
        exact Or.inr ⟨as, s, h2⟩

theorem occursIn_of_parts {pat : List Char} (p s : List Char) :
    occursIn pat (p ++ pat ++ s) = true :=
  (occursIn_iff pat _).mpr ⟨p, s, rfl⟩

theorem occursIn_append_right {pat m : List Char} (a : List Char)
    (h : occursIn pat m = true) : occursIn pat (a ++ m) = true := by
  rcases (occursIn_iff pat m).mp h with ⟨p, s, rfl⟩
  exact (occursIn_iff pat _).mpr ⟨a ++ p, s, by simp⟩

theorem occursIn_append_left {pat a : List Char} (m : List Char)
    (h : occursIn pat a = true) : occursIn pat (a ++ m) = true := by
  rcases (occursIn_iff pat a).mp h with ⟨p, s, rfl⟩
  exact (occursIn_iff pat _).mpr ⟨p, s ++ m, by simp⟩

theorem occursIn_cons {pat m : List Char} (c : Char)
    (h : occursIn pat m = true) : occursIn pat (c :: m) = true :=
  occursIn_append_right [c] h

theorem occursIn_length {pat l : List Char} (h : occursIn pat l = true) :
    pat.length ≤ l.length := by
  rcases (occursIn_iff pat l).mp h with ⟨p, s, rfl⟩
  simp; omega

theorem occursIn_reverse {pat l : List Char} (h : occursIn pat l = true) :
    occursIn pat.reverse l.reverse = true := by
  rcases (occursIn_iff pat l).mp h with ⟨p, s, rfl⟩
  exact (occursIn_iff _ _).mpr ⟨s.reverse, p.reverse, by simp⟩

theorem occursIn_mem {pat l : List Char} (h : occursIn pat l = true)
    {c : Char} (hc : c ∈ pat) : c ∈ l := by
  rcases (occursIn_iff pat l).mp h with ⟨p, s, rfl⟩
  simp [hc]

/-- A substring whose first character is not whitespace survives
leading-whitespace removal. -/
theorem occursIn_dropWhile_ws {h0 : Char} {pt l : List Char}
    (hh : jsWs h0 = false) (h : occursIn (h0 :: pt) l = true) :
    occursIn (h0 :: pt) (l.dropWhile jsWs) = true := by
  induction l with
  | nil => simpa using h
  | cons c rest ih =>
    by_cases hc : jsWs c = true
    · rw [List.dropWhile_cons_of_pos hc]
      apply ih
      rcases (occursIn_iff _ _).mp h with ⟨p, s, heq⟩
      cases p with
      | nil =>
        injection heq with h1 h2
        rw [h1] at hc
        rw [hh] at hc
        exact absurd hc (by simp)
      | cons a as =>
        injection heq with h1 h2
        exact (occursIn_iff _ _).mpr ⟨as, s, h2⟩
    · rw [List.dropWhile_cons_of_neg hc]
      exact h

/-! ## JSON values and the field normalizer (src/libs/ai-extractor.js) -/

/-- A loosely-typed JavaScript/JSON scalar value as delivered by the AI
response: a field may be a string, number, boolean, `null`, or absent
(`undefined`). Numbers are modelled as integers (the truthiness checks and
string conversions the source performs only need `= 0` and decimal
rendering). -/
inductive JVal where
  | undef
  | jnull
  | jbool (b : Bool)
  | jnum (n : Int)
  | jstr (s : String)
deriving DecidableEq, Repr

/-- JavaScript truthiness of a `JVal` (the source's `!x` tests). -/
def truthy : JVal → Bool
  | .undef => false
  | .jnull => false
  | .jbool b => b
  | .jnum n => n != 0
  | .jstr s => s ≠ ""

/-- JavaScript `String(x)` coercion. -/
def jsToString : JVal → String
  | .undef => "undefined"
  | .jnull => "null"
  | .jbool true => "true"
  | .jbool false => "false"
  | .jnum n => toString n
  | .jstr s => s

/-- The source's defaulting idiom `x || ''`. -/
def jsOrEmpty (v : JVal) : JVal := if truthy v then v else .jstr ""

/-- `normalizeAmount` (ai-extractor.js): falsy input gives `''`, otherwise
`String(amount).replace(/\s/g, '').replace(/,/g, '.')`. -/
def normalizeAmount (amount : JVal) : JVal :=
  if !truthy amount then .jstr ""
  else .jstr (commaToDot (stripWsS (jsToString amount)))

/-- `normalizeCurrency` (ai-extractor.js): falsy input defaults to `'EUR'`,
otherwise `String(currency).toUpperCase().substring(0, 3)`. -/
def normalizeCurrency (currency : JVal) : JVal :=
  if !truthy currency then .jstr "EUR"
  else .jstr ⟨(upperS (jsToString currency)).data.take 3⟩

/-- The anchored test `/^\d{4}-\d{2}-\d{2}$/.test(s)`. -/
def isoShape (s : String) : Bool :=
  match s.data with
  | [y1, y2, y3, y4, d1, m1, m2, d2, a1, a2] =>
    y1.isDigit && y2.isDigit && y3.isDigit && y4.isDigit &&
    d1 = '-' && m1.isDigit && m2.isDigit && d2 = '-' &&
    a1.isDigit && a2.isDigit
  | _ => false

/-- Modelled from the spec: a valid result of the external date library
(JavaScript `new Date(...)` on a parsable input), as rendered by
`toISOString().split('T')[0]`: a calendar date with a four-digit year and
two-digit month and day. The library itself is an out-of-scope external
collaborator; theorems quantify over an arbitrary parse function
`JVal → Option CalDate`. -/
structure CalDate where
  year : Nat
  month : Nat
  day : Nat
  year_lt : year < 10000
  month_lt : month < 100
  day_lt : day < 100

/-- The decimal digit character for `n % 10`. -/
def digitChar (n : Nat) : Char := Char.ofNat (48 + n % 10)

/-- The `YYYY-MM-DD` rendering `toISOString().split('T')[0]`: the year
zero-padded to four digits and month/day to two, written digit by digit. -/
def isoFormat (d : CalDate) : String :=
  ⟨[digitChar (d.year / 1000), digitChar (d.year / 100),
    digitChar (d.year / 10), digitChar d.year, '-',
    digitChar (d.month / 10), digitChar d.month, '-',
    digitChar (d.day / 10), digitChar d.day]⟩

/-- `normalizeDate` (ai-extractor.js): falsy input gives `''`; an input
already matching `^\d{4}-\d{2}-\d{2}$` is returned unchanged; otherwise the
external date library (`jsDate`, modelling `new Date`) is consulted and a
successful parse is reformatted via `toISOString().split('T')[0]`, while a
failed parse returns the input unchanged. The JavaScript body cannot throw:
its only throwing call, `toISOString`, is guarded by the `isNaN` validity
check and wrapped in `try`/`catch`. -/
def normalizeDate (jsDate : JVal → Option CalDate) (date : JVal) : JVal :=
  if !truthy date then .jstr ""
  else if isoShape (jsToString date) then date
  else
    match jsDate date with
    | some d => .jstr (isoFormat d)
    | none => date

/-- `normalizeIBAN` (ai-extractor.js): falsy input gives `''`, otherwise
`String(iban).replace(/\s/g, '').toUpperCase()`. -/
def normalizeIBAN (iban : JVal) : JVal :=
  if !truthy iban then .jstr ""
  else .jstr (upperS (stripWsS (jsToString iban)))

/-- The `account_type` line of `normalizeFields`:
`fields.account_type ? fields.account_type.toUpperCase() : ''`. Calling
`.toUpperCase()` on a truthy non-string raises a `TypeError`. -/
def normAccountType (v : JVal) : Except String JVal :=
  if truthy v then
    match v with
    | .jstr s => .ok (.jstr (upperS s))
    | _ => .error "TypeError: fields.account_type.toUpperCase is not a function"
  else .ok (.jstr "")

/-- The raw AI-response object: the 23 `ExtractedFields` keys, each holding
an arbitrary JSON scalar (absent keys read as `undefined`). -/
structure RawFields where
  invoice_number : JVal
  amount : JVal
  currency : JVal
  due_date : JVal
  issue_date : JVal
  reference_number : JVal
  description : JVal
  receiver_name : JVal
  receiver_address : JVal
  sender_name : JVal
  iban : JVal
  account_number : JVal
  routing_number : JVal
  account_type : JVal
  sort_code : JVal
  ifsc_code : JVal
  bsb_code : JVal
  bank_code : JVal
  branch_code : JVal
  institution_number : JVal
  transit_number : JVal
  cnaps_code : JVal
  clabe_number : JVal
deriving DecidableEq, Repr

/-- The normalized record built by `normalizeFields`: the same 23 keys.
Most fields keep whatever truthy value was present (`x || ''`), so the
field type stays `JVal`. -/
structure NormFields where
  invoice_number : JVal
  amount : JVal
  currency : JVal
  due_date : JVal
  issue_date : JVal
  reference_number : JVal
  description : JVal
  receiver_name : JVal
  receiver_address : JVal
  sender_name : JVal
  iban : JVal
  account_number : JVal
  routing_number : JVal
  account_type : JVal
  sort_code : JVal
  ifsc_code : JVal
  bsb_code : JVal
  bank_code : JVal
  branch_code : JVal
  institution_number : JVal
  transit_number : JVal
  cnaps_code : JVal
  clabe_number : JVal
deriving DecidableEq, Repr

/-- `normalizeFields` (ai-extractor.js, 23-field variant): builds the
normalized record; the only line that can throw is the `account_type`
uppercasing, surfaced here as `Except.error`. -/
def normalizeFields (jsDate : JVal → Option CalDate) (fields : RawFields) :
    Except String NormFields :=
  match normAccountType fields.account_type with
  | .error e => .error e
  | .ok at_ =>
    .ok {
      invoice_number := jsOrEmpty fields.invoice_number
      amount := normalizeAmount fields.amount
      currency := normalizeCurrency fields.currency
      due_date := normalizeDate jsDate fields.due_date
      issue_date := normalizeDate jsDate fields.issue_date
      reference_number := jsOrEmpty fields.reference_number
      description := jsOrEmpty fields.description
      receiver_name := jsOrEmpty fields.receiver_name
      receiver_address := jsOrEmpty fields.receiver_address
      sender_name := jsOrEmpty fields.sender_name
      iban := normalizeIBAN fields.iban
      account_number := jsOrEmpty fields.account_number
      routing_number := jsOrEmpty fields.routing_number
      account_type := at_
      sort_code := jsOrEmpty fields.sort_code
      ifsc_code := jsOrEmpty fields.ifsc_code
      bsb_code := jsOrEmpty fields.bsb_code
      bank_code := jsOrEmpty fields.bank_code
      branch_code := jsOrEmpty fields.branch_code
      institution_number := jsOrEmpty fields.institution_number
      transit_number := jsOrEmpty fields.transit_number
      cnaps_code := jsOrEmpty fields.cnaps_code
      clabe_number := jsOrEmpty fields.clabe_number }

/-- The value `null` or `undefined` (an absent field or an explicit
JSON `null`). -/
def isNullish : JVal → Bool
  | .undef => true
  | .jnull => true
  | _ => false

/-- A `RawFields` record with every field `null` (the AI answered `null`
for all 23 fields). -/
def allNullFields : RawFields :=
  ⟨.jnull, .jnull, .jnull, .jnull, .jnull, .jnull, .jnull, .jnull, .jnull,
   .jnull, .jnull, .jnull, .jnull, .jnull, .jnull, .jnull, .jnull, .jnull,
   .jnull, .jnull, .jnull, .jnull, .jnull⟩

/-! ## Sidebar form controller (src/sidebar/sidebar.js) -/

/-- The static `CURRENCY_BANK_FIELDS` table: currency code to the ordered
list of required bank-identifier field names. -/
def CURRENCY_BANK_FIELDS : List (String × List String) :=
  [("BGN", ["iban"]),
   ("CHF", ["iban"]),
   ("CZK", ["iban"]),
   ("DKK", ["iban"]),
   ("EUR", ["iban"]),
   ("GEL", ["iban"]),
   ("HRK", ["iban"]),
   ("HUF", ["iban"]),
   ("NOK", ["iban"]),
   ("PKR", ["iban"]),
   ("PLN", ["iban"]),
   ("RON", ["iban"]),
   ("SEK", ["iban"]),
   ("TRY", ["iban"]),
   ("GBP", ["sortCode", "accountNumber"]),
   ("USD", ["routingNumber", "accountNumber", "accountType"]),
   ("CAD", ["institutionNumber", "transitNumber", "accountNumber"]),
   ("AUD", ["bsbCode", "accountNumber"]),
   ("NZD", ["accountNumber"]),
   ("INR", ["ifscCode", "accountNumber"]),
   ("CNY", ["cnapsCode", "accountNumber"]),
   ("JPY", ["bankCode", "branchCode", "accountNumber", "accountType"]),
   ("SGD", ["bankCode", "branchCode", "accountNumber"]),
   ("HKD", ["bankCode", "branchCode", "accountNumber"]),
   ("BRL", ["bankCode", "branchCode", "accountNumber", "accountType"]),
   ("MXN", ["clabeNumber"]),
   ("ZAR", ["accountNumber"]),
   ("DEFAULT", ["accountNumber"])]

/-- One entry of the `FIELD_CONFIG` table. Only the parts the form
controller reads when rendering are kept: label, placeholder, help text,
and whether the control is a `<select>` with its options. -/
structure FieldConfig where
  label : String
  placeholder : String
  help : String
  isSelect : Bool
  options : List (String × String)
deriving DecidableEq, Repr

/-- The static `FIELD_CONFIG` table of labels/placeholders per
bank-identifier field name. -/
def FIELD_CONFIG : List (String × FieldConfig) :=
  [("iban", ⟨"IBAN", "DE89 3704 0044 0532 0130 00",
     "International Bank Account Number", false, []⟩),
   ("sortCode", ⟨"Sort Code", "40-47-84", "6-digit UK bank sort code",
     false, []⟩),
   ("accountNumber", ⟨"Account Number", "12345678", "Bank account number",
     false, []⟩),
   ("routingNumber", ⟨"Routing Number", "026009593",
     "9-digit ABA routing number", false, []⟩),
   ("accountType", ⟨"Account Type", "Select account type",
     "Checking or Savings", true,
     [("checking", "Checking"), ("savings", "Savings")]⟩),
   ("institutionNumber", ⟨"Institution Number", "001",
     "3-digit Canadian institution number", false, []⟩),
   ("transitNumber", ⟨"Transit Number", "12345",
     "5-digit Canadian transit number", false, []⟩),
   ("bsbCode", ⟨"BSB Code", "062-001", "6-digit Australian BSB code",
     false, []⟩),
   ("ifscCode", ⟨"IFSC Code", "SBIN0001234",
     "11-character Indian IFSC code", false, []⟩),
   ("cnapsCode", ⟨"CNAPS Code", "102100099996",
     "12-digit Chinese CNAPS code", false, []⟩),
   ("bankCode", ⟨"Bank Code", "0001", "Bank identification code",
     false, []⟩),
   ("branchCode", ⟨"Branch Code", "001", "Branch identification code",
     false, []⟩),
   ("clabeNumber", ⟨"CLABE Number", "012180001234567897",
     "18-digit Mexican CLABE number", false, []⟩)]

/-- The lookup `CURRENCY_BANK_FIELDS[currency] || CURRENCY_BANK_FIELDS['DEFAULT']`. -/
def bankFieldsFor (currency : String) : List String :=
  match CURRENCY_BANK_FIELDS.lookup currency with
  | some fs => fs
  | none =>
    match CURRENCY_BANK_FIELDS.lookup "DEFAULT" with
    | some fs => fs
    | none => []

/-- One input control produced by `renderBankFields`: its field name
(element id `bank-<name>`), the `required` attribute, whether it is a
`<select>`, and its label text. -/
structure RenderedField where
  name : String
  required : Bool
  isSelect : Bool
  label : String
deriving DecidableEq, Repr

/-- `renderBankFields` (sidebar.js): for each required field name of the
currency, look up its config (skipping names without one) and emit an
input or select control with `required = true` and label `<label> *`. -/
def renderBankFields (currency : String) : List RenderedField :=
  (bankFieldsFor currency).filterMap (fun fieldName =>
    match FIELD_CONFIG.lookup fieldName with
    | none => none
    | some config =>
      some ⟨fieldName, true, config.isSelect, config.label ++ " *"⟩)

/-- `getBankFieldValues` (sidebar.js): reads every input/select in the
bank-fields container. The container holds exactly the controls
`renderBankFields` produced for the current currency; `value` gives each
control's current value. -/
def getBankFieldValues (currency : String) (value : String → String) :
    List (String × String) :=
  (renderBankFields currency).map (fun r => (r.name, value r.name))

/-- The validation part of `handleSubmit` (sidebar.js): reject when
receiver name or amount is falsy (empty), then reject when some collected
bank-field value `v` has `!v || v.trim() === ''`; otherwise proceed. -/
def handleSubmit (receiverName amount currency : String)
    (value : String → String) : Except String Unit :=
  if receiverName = "" ∨ amount = "" then
    .error "Please fill in all required fields (Receiver Name, Amount)"
  else if (getBankFieldValues currency value).any
      (fun kv => kv.2 = "" || trimS kv.2 = "") then
    .error "Please fill in all required bank account fields"
  else .ok ()

/-- The greedy chunking `cleaned.match(/.{1,4}/g)`: groups of four
characters from the left, with a final shorter group. -/
def chunk4 : List Char → List (List Char)
  | [] => []
  | c :: cs => (c :: cs).take 4 :: chunk4 ((c :: cs).drop 4)
termination_by l => l.length
decreasing_by
  simp only [List.length_drop, List.length_cons]
  omega

/-- `join(' ')` over the chunks. -/
def joinSpace : List (List Char) → List Char
  | [] => []
  | [t] => t
  | t :: ts => t ++ ' ' :: joinSpace ts

/-- `formatIBAN` (sidebar.js): falsy input gives `''`; otherwise remove all
whitespace and regroup into space-separated blocks of four characters. -/
def formatIBAN (iban : String) : String :=
  if iban = "" then ""
  else ⟨joinSpace (chunk4 (stripWsL iban.data))⟩

/-! ## Heuristic PDF text recovery (ai-extractor.js, extractFromPDFWithVision)

The PDF bytes are decoded with the `latin1` single-byte codec, which maps
byte `k` to code point `k`; buffers are therefore `List Char` whose code
points are below 256. The global regex `/\(([^)]{3,})\)/g` is an
explicit left-to-right scan: at a `(` the greedy class `[^)]` runs to the
first `)`; the match succeeds when that interior has at least three
characters, and scanning resumes after the closing `)`; any failed
attempt advances one character. -/

theorem lengthDropWhileLe (p : Char → Bool) (l : List Char) :
    (l.dropWhile p).length ≤ l.length := by
  induction l with
  | nil => simp
  | cons c cs ih =>
    by_cases h : p c = true
    · rw [List.dropWhile_cons_of_pos h]
      simp only [List.length_cons]
      omega
    · rw [List.dropWhile_cons_of_neg h]

/-- Fuel-indexed scanner; `scanRuns` supplies the buffer length as fuel,
which always suffices because each step consumes at least one character. -/
def scanRunsF : Nat → List Char → List (List Char)
  | 0, _ => []
  | _ + 1, [] => []
  | fuel + 1, c :: rest =>
    if c = '(' then
      match rest.dropWhile (fun x => x ≠ ')') with
      | [] => scanRunsF fuel rest
      | _ :: tail =>
        if 3 ≤ (rest.takeWhile (fun x => x ≠ ')')).length then
          rest.takeWhile (fun x => x ≠ ')') :: scanRunsF fuel tail
        else scanRunsF fuel rest
    else scanRunsF fuel rest

/-- The interiors of the successive matches of `/\(([^)]{3,})\)/g`. -/
def scanRuns (l : List Char) : List (List Char) := scanRunsF l.length l

theorem scanRunsF_congr :
    ∀ (f1 f2 : Nat) (l : List Char), l.length ≤ f1 → l.length ≤ f2 →
      scanRunsF f1 l = scanRunsF f2 l := by
  intro f1
  induction f1 with
  | zero =>
    intro f2 l h1 _
    have : l = [] := List.length_eq_zero.mp (Nat.le_zero.mp h1)
    subst this
    cases f2 <;> rfl
  | succ f1 ih =>
    intro f2 l h1 h2
    cases l with
    | nil => cases f2 <;> rfl
    | cons c rest =>
      cases f2 with
      | zero => simp at h2
      | succ f2 =>
        simp only [List.length_cons, Nat.succ_le_succ_iff] at h1 h2
        simp only [scanRunsF]
        by_cases hc : c = '('
        · rw [if_pos hc, if_pos hc]
          cases hdw : rest.dropWhile (fun x => x ≠ ')') with
          | nil => exact ih f2 rest h1 h2
          | cons y tail =>
            have htail : tail.length ≤ rest.length := by
              have := lengthDropWhileLe (fun x => decide (x ≠ ')')) rest
              rw [hdw] at this
              simp only [List.length_cons] at this
              omega
            dsimp only
            by_cases hlong : 3 ≤ (rest.takeWhile (fun x => x ≠ ')')).length
            · rw [if_pos hlong, if_pos hlong,
                ih f2 tail (le_trans htail h1) (le_trans htail h2)]
            · rw [if_neg hlong, if_neg hlong]
              exact ih f2 rest h1 h2
        · rw [if_neg hc, if_neg hc]
          exact ih f2 rest h1 h2

theorem scanRuns_nil : scanRuns [] = [] := rfl

theorem scanRuns_cons_ne {c : Char} (rest : List Char) (hc : c ≠ '(') :
    scanRuns (c :: rest) = scanRuns rest := by
  show scanRunsF (rest.length + 1) (c :: rest) = scanRuns rest
  simp only [scanRunsF]
  rw [if_neg hc]
  rfl

theorem scanRuns_paren_nil (rest : List Char)
    (hdw : rest.dropWhile (fun x => x ≠ ')') = []) :
    scanRuns ('(' :: rest) = scanRuns rest := by
  show scanRunsF (rest.length + 1) ('(' :: rest) = scanRuns rest
  simp only [scanRunsF, if_true]
  rw [hdw]
  rfl

theorem scanRuns_paren_short {y : Char} {tail : List Char} (rest : List Char)
    (hdw : rest.dropWhile (fun x => x ≠ ')') = y :: tail)
    (hshort : ¬ 3 ≤ (rest.takeWhile (fun x => x ≠ ')')).length) :
    scanRuns ('(' :: rest) = scanRuns rest := by
  show scanRunsF (rest.length + 1) ('(' :: rest) = scanRuns rest
  simp only [scanRunsF, if_true]
  rw [hdw]
  dsimp only
  rw [if_neg hshort]
  rfl

theorem scanRuns_paren_run {y : Char} {tail : List Char} (rest : List Char)
    (hdw : rest.dropWhile (fun x => x ≠ ')') = y :: tail)
    (hlong : 3 ≤ (rest.takeWhile (fun x => x ≠ ')')).length) :
    scanRuns ('(' :: rest) =
      rest.takeWhile (fun x => x ≠ ')') :: scanRuns tail := by
  show scanRunsF (rest.length + 1) ('(' :: rest) = _
  simp only [scanRunsF, if_true]
  rw [hdw]
  dsimp only
  rw [if_pos hlong]
  have htail : tail.length ≤ rest.length := by
    have := lengthDropWhileLe (fun x => decide (x ≠ ')')) rest
    rw [hdw] at this
    simp only [List.length_cons] at this
    omega
  rw [scanRunsF_congr rest.length tail.length tail htail le_rfl]
  rfl

/-- The filter in the extraction loop: keep a matched run when the raw
text has at least three characters and no control character. -/
def keepRun (t : List Char) : Bool :=
  3 ≤ t.length && !(t.any isPdfCtrl)

/-- A single left-to-right pass of `String.prototype.replace` for a
pattern `\x`: at a backslash followed by `y`, when the table maps `y` to a
replacement the pair is consumed; otherwise the scan advances one
character. -/
def jsEsc (tbl : Char → Option (List Char)) : List Char → List Char
  | [] => []
  | c :: rest =>
    if c = '\\' then
      match rest with
      | [] => ['\\']
      | y :: rest2 =>
        match tbl y with
        | some r => r ++ jsEsc tbl rest2
        | none => '\\' :: jsEsc tbl (y :: rest2)
    else c :: jsEsc tbl rest

/-- Replacement table for a single escape pair `\x ↦ r`. -/
def escTable (x : Char) (r : List Char) : Char → Option (List Char) :=
  fun y => if y = x then some r else none

/-- Replacement table for `/\\([()])/g ↦ '$1'`. -/
def escParenTable : Char → Option (List Char) :=
  fun y => if y = '(' ∨ y = ')' then some [y] else none

/-- The chained unescaping of one matched run:
`.replace(/\\n/g,' ').replace(/\\r/g,' ').replace(/\\t/g,' ')`
`.replace(/\\\\/g,'\\').replace(/\\([()])/g,'$1')`. -/
def unescapePdf (t : List Char) : List Char :=
  jsEsc escParenTable
    (jsEsc (escTable '\\' ['\\'])
      (jsEsc (escTable 't' [' '])
        (jsEsc (escTable 'r' [' '])
          (jsEsc (escTable 'n' [' ']) t))))

/-- The accumulation loop `extractedText += text + ' '` over the
surviving runs. -/
def joinRuns : List (List Char) → List Char
  | [] => []
  | t :: ts => unescapePdf t ++ ' ' :: joinRuns ts

/-- The heuristic text-recovery portion of `extractFromPDFWithVision`
(ai-extractor.js): scan the latin1-decoded buffer for parenthesized runs,
drop short or control-character runs, unescape the survivors, join them
with single spaces and trim. -/
def pdfHeuristicText (buf : List Char) : List Char :=
  trimL (joinRuns ((scanRuns buf).filter keepRun))

/-- The literal text object the testable property inserts. -/
def invoiceTarget : List Char := "(Invoice Total 120.00)".data

/-- Its interior, the substring expected in the recovered text. -/
def invoiceInner : List Char := "Invoice Total 120.00".data

/-! ## Background service worker (background.js variant with the
processPDFFile and createWiseTransfer handlers) -/

/-- Result of `extractTextFromPDF` (src/libs/pdf-processor.js): the
function converts the PDF bytes to base64 and always returns the marker
object `{ useVisionAPI: true, base64, mimeType }` — an object, not a text
string (the base64 payload itself is irrelevant to control flow and is
elided). Its `catch` branch returning `null` is unreachable for the pure
byte-to-base64 conversion. -/
inductive PdfLibOut where
  | marker
deriving DecidableEq, Repr

/-- `extractTextFromPDF` (src/libs/pdf-processor.js). -/
def extractTextFromPDF (_pdfData : List Nat) : PdfLibOut := .marker

/-- The header validation in `handlePDFFileProcessing`:
`String.fromCharCode(...uint8Array.slice(0, 5))` starts with `%PDF-`. -/
def pdfHeaderOK (pdfData : List Nat) : Bool :=
  (pdfData.take 5).map Char.ofNat = "%PDF-".data

/-- `handlePDFFileProcessing` (background variant): validate the header,
run the offscreen PDF.js extraction (an external collaborator, passed in
as its outcome `offscreen`), and when its text is missing or its trimmed
length is below 50 fall back to `extractTextFromPDF` — which returns the
`useVisionAPI` marker object, so the subsequent length check
`extractedText.trim()` calls `.trim` on a non-string and the flow fails
with a `TypeError`. A successful return carries the offscreen text. -/
def handlePDFFileProcessing (pdfData : List Nat)
    (offscreen : Except String String) : Except String String :=
  if !pdfHeaderOK pdfData then
    .error "Invalid PDF file: Missing PDF header"
  else
    match offscreen with
    | .error e => .error e
    | .ok t =>
      if t = "" ∨ (trimS t).data.length < 50 then
        match extractTextFromPDF pdfData with
        | .marker => .error "extractedText.trim is not a function"
      else .ok t

/-- A value sent through `sendResponse` by the background message
listener: the success objects built by the handlers, the `{ error }` and
`{ success: false, error }` objects of the catch branches, or — for the
`getApiKey` handler — the raw stored key string / `null`. -/
inductive BgResponse where
  | pdfResult (text url timestamp : String)
  | pdfFileResult (text fileName timestamp : String)
  | aiResult (fields : NormFields)
  | saveOk
  | wiseOk (transferId quoteId recipientId : Nat)
  | errObj (msg : String)
  | wiseErrObj (msg : String)
  | rawStr (s : String)
  | rawNull
deriving DecidableEq, Repr

/-- Whether a response value is an object (a spread result or an
error-carrying object) rather than a bare string or `null`. -/
def isObjectResponse : BgResponse → Bool
  | .rawStr _ => false
  | .rawNull => false
  | _ => true

/-- The actions registered by `chrome.runtime.onMessage.addListener` in
the background variant with the full handler set. -/
def registeredActions : List String :=
  ["processPDF", "processPDFFile", "extractWithAI", "getApiKey",
   "saveApiKey", "createWiseTransfer"]

/-- The background message listener: dispatch on `message.action`. The
asynchronous work of each handler (network, storage, offscreen document)
is external, so each handler's outcome is a parameter; the listener wires
`.then(sendResponse)` and `.catch(e => sendResponse({ error: e.message }))`
(for `createWiseTransfer`, `{ success: false, error }`). `getApiKey` has no
catch and responds with the raw stored key, `null` when unset. `none`
means no registered branch matched and nothing is sent. -/
def handleMessage (action : String)
    (pdfOutcome : Except String (String × String × String))
    (pdfFileOutcome : Except String (String × String × String))
    (aiOutcome : Except String NormFields)
    (storedKey : Option String)
    (wiseOutcome : Except String (Nat × Nat × Nat)) : Option BgResponse :=
  if action = "processPDF" then
    some (match pdfOutcome with
      | .ok (t, u, ts) => .pdfResult t u ts
      | .error e => .errObj e)
  else if action = "processPDFFile" then
    some (match pdfFileOutcome with
      | .ok (t, f, ts) => .pdfFileResult t f ts
      | .error e => .errObj e)
  else if action = "extractWithAI" then
    some (match aiOutcome with
      | .ok fs => .aiResult fs
      | .error e => .errObj e)
  else if action = "getApiKey" then
    some (match storedKey with
      | some k => .rawStr k
      | none => .rawNull)
  else if action = "saveApiKey" then
    some .saveOk
  else if action = "createWiseTransfer" then
    some (match wiseOutcome with
      | .ok (tid, qid, rid) => .wiseOk tid qid rid
      | .error e => .wiseErrObj e)
  else none

/-! ## Claim C1: submission validation -/

/-- C1. Submission validation on the transfer form rejects (shows an error
and does not proceed) exactly when the receiver-name value is empty, or the
amount value is empty, or one of the rendered currency-required
bank-identifier fields holds an empty or whitespace-only value; otherwise
submission proceeds. -/
theorem c1_submission_validation (r a c : String) (value : String → String) :
    (∃ e, handleSubmit r a c value = Except.error e) ↔
      (r = "" ∨ a = "" ∨
        ∃ fld ∈ renderBankFields c, trimS (value fld.name) = "") := by
  unfold handleSubmit
  by_cases h1 : r = "" ∨ a = ""
  · rw [if_pos h1]
    constructor
    · intro _
      tauto
    · intro _
      exact ⟨_, rfl⟩
  · rw [if_neg h1]
    by_cases h2 : (getBankFieldValues c value).any
        (fun kv => kv.2 = "" || trimS kv.2 = "") = true
    · rw [if_pos h2]
      constructor
      · intro _
        right; right
        rw [getBankFieldValues, List.any_eq_true] at h2
        obtain ⟨kv, hkvmem, hkv⟩ := h2
        rw [List.mem_map] at hkvmem
        obtain ⟨fld, hfld, rfl⟩ := hkvmem
        simp only [Bool.or_eq_true, decide_eq_true_eq] at hkv
        refine ⟨fld, hfld, ?_⟩
        rcases hkv with h | h
        · rw [h]; rfl
        · exact h
      · intro _
        exact ⟨_, rfl⟩
    · rw [if_neg h2]
      constructor
      · rintro ⟨e, he⟩
        exact absurd he (by simp)
      · rintro (h | h | ⟨fld, hfld, htrim⟩)
        · exact absurd (Or.inl h) h1
        · exact absurd (Or.inr h) h1
        · exfalso
          apply h2
          rw [getBankFieldValues, List.any_eq_true]
          exact ⟨(fld.name, value fld.name),
            List.mem_map.mpr ⟨fld, hfld, rfl⟩, by simp [htrim]⟩

/-- Witness for C1 at a concrete form state: empty receiver name is
rejected, and a fully populated EUR form passes. -/
theorem c1_submission_validation_witness :
    (∃ e, handleSubmit "" "100" "EUR" (fun _ => "DE89") = Except.error e) ∧
    ¬ (∃ e, handleSubmit "Acme" "100" "EUR" (fun _ => "DE89") =
        Except.error e) := by
  constructor
  · exact (c1_submission_validation "" "100" "EUR" (fun _ => "DE89")).mpr
      (Or.inl rfl)
  · intro h
    have := (c1_submission_validation "Acme" "100" "EUR"
      (fun _ => "DE89")).mp h
    revert this
    decide

/-! ## Claim C4: bank-field rendering matches the schema -/

/-- C4. For every currency code present in the `CURRENCY_BANK_FIELDS`
table, rendering the bank-field set produces exactly the configured
ordered list of bank-identifier fields — none missing, none extra, in
order — and every rendered control is marked required. -/
theorem c4_render_bank_fields :
    ∀ c fs, (c, fs) ∈ CURRENCY_BANK_FIELDS →
      (renderBankFields c).map RenderedField.name = fs ∧
      ∀ fld ∈ renderBankFields c, fld.required = true := by
  have hall : CURRENCY_BANK_FIELDS.all
      (fun p => decide ((renderBankFields p.1).map RenderedField.name = p.2) &&
        (renderBankFields p.1).all (fun fld => fld.required)) = true := by
    decide
  intro c fs hmem
  have h := List.all_eq_true.mp hall (c, fs) hmem
  simp only [Bool.and_eq_true, decide_eq_true_eq, List.all_eq_true] at h
  exact ⟨h.1, h.2⟩

/-- Witness for C4 at the EUR entry of the table. -/
theorem c4_render_bank_fields_witness :
    (renderBankFields "EUR").map RenderedField.name = ["iban"] ∧
    ∀ fld ∈ renderBankFields "EUR", fld.required = true :=
  c4_render_bank_fields "EUR" ["iban"] (by decide)

/-! ## Claim C8: normalizeDate -/

theorem digitChar_isDigit (n : Nat) : (digitChar n).isDigit = true := by
  unfold digitChar
  have h : n % 10 < 10 := Nat.mod_lt _ (by norm_num)
  set k := n % 10 with hk
  interval_cases k <;> decide

/-- The rendering of a valid calendar date matches `^\d{4}-\d{2}-\d{2}$`. -/
theorem isoShape_isoFormat (d : CalDate) : isoShape (isoFormat d) = true := by
  unfold isoShape isoFormat
  simp [digitChar_isDigit]

theorem isoFormat_ne_empty (d : CalDate) : isoFormat d ≠ "" := by
  intro h
  have := congrArg String.data h
  simp [isoFormat] at this

/-- C8. For every input string: a string already matching the
`YYYY-MM-DD` shape is returned unchanged; any other string is returned
either reformatted to `YYYY-MM-DD` (when the external date library parses
it) or unchanged; and an empty result arises only from the empty input.
The JavaScript body never throws (its only throwing call is guarded and
wrapped in `try`/`catch`), so the embedding is a total function. -/
theorem c8_normalize_date (jsDate : JVal → Option CalDate) (s : String) :
    (isoShape s = true → normalizeDate jsDate (.jstr s) = .jstr s) ∧
    (isoShape s = false →
      normalizeDate jsDate (.jstr s) = .jstr s ∨
      ∃ d, jsDate (.jstr s) = some d ∧
        normalizeDate jsDate (.jstr s) = .jstr (isoFormat d) ∧
        isoShape (isoFormat d) = true) ∧
    (normalizeDate jsDate (.jstr s) = .jstr "" → s = "") := by
  by_cases hs : s = ""
  · subst hs
    refine ⟨?_, ?_, ?_⟩
    · intro h
      exact absurd h (by decide)
    · intro _
      left
      rfl
    · intro _
      rfl
  · have ht : (!truthy (.jstr s)) = false := by
      simp [truthy, hs]
    unfold normalizeDate
    rw [ht]
    simp only [Bool.false_eq_true, if_false]
    have hjs : jsToString (.jstr s) = s := rfl
    rw [hjs]
    by_cases hshape : isoShape s = true
    · rw [if_pos hshape]
      refine ⟨fun _ => rfl, fun hf => absurd hshape (by simp [hf]), ?_⟩
      intro h
      simp only [JVal.jstr.injEq] at h
      exact h
    · rw [if_neg hshape]
      cases hjd : jsDate (.jstr s) with
      | none =>
        refine ⟨fun h => absurd h hshape, fun _ => Or.inl rfl, ?_⟩
        intro h
        simp only [JVal.jstr.injEq] at h
        exact h
      | some d =>
        refine ⟨fun h => absurd h hshape,
          fun _ => Or.inr ⟨d, rfl, rfl, isoShape_isoFormat d⟩, ?_⟩
        intro h
        simp only [JVal.jstr.injEq] at h
        exact absurd h (isoFormat_ne_empty d)

/-- Witness for C8: a canonical date passes through unchanged. -/
theorem c8_normalize_date_witness :
    normalizeDate (fun _ => none) (.jstr "2025-12-28") =
      .jstr "2025-12-28" :=
  (c8_normalize_date (fun _ => none) "2025-12-28").1 (by decide)

/-! ## Claim C9: normalizeAmount -/

/-- C9 (amended). `normalizeAmount` returns the empty string for every
falsy input (absent, `null`, empty string, the number `0`, `false`), and
for every truthy input removes all whitespace and converts each comma to a
dot in the input's string form; in particular `"1 250,50" ↦ "1250.50"`
and `null ↦ ""`. -/
theorem c9_normalize_amount_amended :
    (∀ v : JVal, truthy v = false → normalizeAmount v = .jstr "") ∧
    (∀ v : JVal, truthy v = true →
      normalizeAmount v = .jstr (commaToDot (stripWsS (jsToString v)))) ∧
    normalizeAmount (.jstr "1 250,50") = .jstr "1250.50" ∧
    normalizeAmount .jnull = .jstr "" := by
  refine ⟨?_, ?_, by decide, by decide⟩
  · intro v hv
    unfold normalizeAmount
    rw [hv]
    rfl
  · intro v hv
    unfold normalizeAmount
    rw [hv]
    rfl

/-- Counterexample for C9 as frozen: the number `0` is not absent, yet the
code returns `''` rather than the whitespace/comma-normalized string form
`"0"`. -/
theorem c9_normalize_amount_counterexample :
    normalizeAmount (JVal.jnum 0) = JVal.jstr "" ∧
    commaToDot (stripWsS (jsToString (JVal.jnum 0))) = "0" ∧
    normalizeAmount (JVal.jnum 0) ≠
      JVal.jstr (commaToDot (stripWsS (jsToString (JVal.jnum 0)))) := by
  refine ⟨rfl, rfl, ?_⟩
  decide

/-- Witness for C9 at the concrete input `null`. -/
theorem c9_normalize_amount_witness : normalizeAmount .jnull = .jstr "" :=
  c9_normalize_amount_amended.1 .jnull (by decide)

/-! ## Claim C10: IBAN display formatting round-trips through normalization -/

theorem toUpper_of_not_lower (c : Char) (h : c.isLower = false) :
    c.toUpper = c := by
  simp only [Char.isLower] at h
  simp only [Char.toUpper]
  rw [if_neg]
  intro hc
  simp only [Bool.and_eq_false_iff, decide_eq_false_iff_not, not_le,
    ge_iff_le] at h
  rcases h with h | h
  · exact absurd hc.1 (by simpa [Char.toNat] using h)
  · exact absurd hc.2 (by simpa [Char.toNat] using h)

theorem map_toUpper_eq_self (l : List Char)
    (h : ∀ c ∈ l, c.isLower = false) : l.map Char.toUpper = l := by
  induction l with
  | nil => rfl
  | cons c cs ih =>
    simp only [List.map_cons, toUpper_of_not_lower c (h c (by simp)),
      ih (fun x hx => h x (by simp [hx])), List.cons.injEq, and_self]

theorem chunk4_nil : chunk4 [] = [] := by
  rw [chunk4]

theorem chunk4_cons (c : Char) (cs : List Char) :
    chunk4 (c :: cs) = (c :: cs).take 4 :: chunk4 ((c :: cs).drop 4) := by
  rw [chunk4]

theorem joinSpace_cons_of_ne (t : List Char) (ts : List (List Char))
    (h : ts ≠ []) : joinSpace (t :: ts) = t ++ ' ' :: joinSpace ts := by
  cases ts with
  | nil => exact absurd rfl h
  | cons x xs => rfl

theorem stripWsL_eq_self {l : List Char} (h : ∀ c ∈ l, jsWs c = false) :
    stripWsL l = l :=
  List.filter_eq_self.mpr (fun a ha => by simp [h a ha])

theorem stripWsL_cons_ws {a : Char} (h : jsWs a = true) (l : List Char) :
    stripWsL (a :: l) = stripWsL l := by
  simp [stripWsL, List.filter_cons, h]

theorem strip_join_chunk_fuel :
    ∀ (n : Nat) (l : List Char), l.length ≤ n → (∀ c ∈ l, jsWs c = false) →
      stripWsL (joinSpace (chunk4 l)) = l := by
  intro n
  induction n with
  | zero =>
    intro l hlen _
    have : l = [] := List.length_eq_zero.mp (Nat.le_zero.mp hlen)
    subst this
    simp [chunk4, joinSpace, stripWsL]
  | succ n ih =>
  intro l hlen hl
  cases l with
  | nil =>
    simp [chunk4, joinSpace, stripWsL]
  | cons c cs =>
    rw [chunk4_cons]
    cases hdrop : (c :: cs).drop 4 with
    | nil =>
      have htake : (c :: cs).take 4 = c :: cs := by
        have := List.take_append_drop 4 (c :: cs)
        rw [hdrop] at this
        simpa using this
      rw [htake, chunk4_nil]
      show stripWsL (joinSpace [c :: cs]) = c :: cs
      exact stripWsL_eq_self hl
    | cons r0 rs =>
      have hchunkne : chunk4 (r0 :: rs) ≠ [] := by
        rw [chunk4_cons]
        simp
      rw [joinSpace_cons_of_ne _ _ hchunkne]
      have hlen2 : (r0 :: rs).length ≤ n := by
        have := congrArg List.length hdrop
        simp only [List.length_drop, List.length_cons] at this hlen
        simp only [List.length_cons]
        omega
      have hsub : ∀ x ∈ r0 :: rs, jsWs x = false := by
        intro x hx
        apply hl
        rw [← hdrop] at hx
        exact List.drop_subset 4 (c :: cs) hx
      have hrec := ih (r0 :: rs) hlen2 hsub
      have htakews : ∀ x ∈ (c :: cs).take 4, jsWs x = false :=
        fun x hx => hl x (List.take_subset 4 (c :: cs) hx)
      calc stripWsL ((c :: cs).take 4 ++ ' ' :: joinSpace (chunk4 (r0 :: rs)))
          = stripWsL ((c :: cs).take 4) ++
              stripWsL (' ' :: joinSpace (chunk4 (r0 :: rs))) := by
            exact List.filter_append _ _
        _ = (c :: cs).take 4 ++ stripWsL (joinSpace (chunk4 (r0 :: rs))) := by
            rw [stripWsL_eq_self htakews]
            congr 1
        _ = (c :: cs).take 4 ++ (r0 :: rs) := by rw [hrec]
        _ = c :: cs := by
            rw [← hdrop]
            exact List.take_append_drop 4 (c :: cs)

theorem strip_join_chunk (l : List Char) (hl : ∀ c ∈ l, jsWs c = false) :
    stripWsL (joinSpace (chunk4 l)) = l :=
  strip_join_chunk_fuel l.length l le_rfl hl

theorem joinSpace_chunk4_ne_nil {c : Char} (cs : List Char) :
    joinSpace (chunk4 (c :: cs)) ≠ [] := by
  rw [chunk4_cons]
  cases h : chunk4 ((c :: cs).drop 4) with
  | nil =>
    show joinSpace [(c :: cs).take 4] ≠ []
    show (c :: cs).take 4 ≠ []
    simp [List.take_succ_cons]
  | cons x xs =>
    rw [joinSpace_cons_of_ne _ _ (by simp)]
    simp

/-- C10. For every non-empty string with no whitespace and no lowercase
letters, the sidebar's space-grouped IBAN display formatting is exactly
undone by IBAN normalization: `normalizeIBAN(formatIBAN(s)) = s`. -/
theorem c10_format_normalize_iban (s : String) (h1 : s ≠ "")
    (h2 : ∀ c ∈ s.data, jsWs c = false)
    (h3 : ∀ c ∈ s.data, c.isLower = false) :
    normalizeIBAN (.jstr (formatIBAN s)) = .jstr s := by
  obtain ⟨ld⟩ := s
  have hld : ld ≠ [] := by
    intro h
    exact h1 (by rw [h])
  unfold formatIBAN
  rw [if_neg h1]
  have hdata : (String.mk ld).data = ld := rfl
  rw [hdata, stripWsL_eq_self h2]
  cases ld with
  | nil => exact absurd rfl hld
  | cons c cs =>
    have hne := joinSpace_chunk4_ne_nil (c := c) cs
    unfold normalizeIBAN
    have hb : truthy (.jstr ⟨joinSpace (chunk4 (c :: cs))⟩) = true := by
      show decide ((⟨joinSpace (chunk4 (c :: cs))⟩ : String) ≠ "") = true
      rw [decide_eq_true_eq]
      intro hmk
      exact hne (congrArg String.data hmk)
    rw [hb]
    simp only [Bool.not_true, Bool.false_eq_true, if_false]
    show JVal.jstr (upperS (stripWsS ⟨joinSpace (chunk4 (c :: cs))⟩)) =
      JVal.jstr ⟨c :: cs⟩
    congr 1
    show upperS ⟨stripWsL (joinSpace (chunk4 (c :: cs)))⟩ = ⟨c :: cs⟩
    rw [strip_join_chunk (c :: cs) h2]
    show (⟨(c :: cs).map Char.toUpper⟩ : String) = ⟨c :: cs⟩
    rw [map_toUpper_eq_self (c :: cs) h3]

/-- Witness for C10 at the canonical German IBAN. -/
theorem c10_format_normalize_iban_witness :
    normalizeIBAN (.jstr (formatIBAN "DE89370400440532013000")) =
      .jstr "DE89370400440532013000" :=
  c10_format_normalize_iban "DE89370400440532013000" (by decide) (by decide)
    (by decide)

/-! ## Claims C2 and C3: the field normalizer -/

theorem truthy_of_nullish {v : JVal} (h : isNullish v = true) :
    truthy v = false := by
  cases v with
  | undef => rfl
  | jnull => rfl
  | jbool b => simp [isNullish] at h
  | jnum n => simp [isNullish] at h
  | jstr s => simp [isNullish] at h

theorem jsOrEmpty_nullish {v : JVal} (h : isNullish v = true) :
    jsOrEmpty v = .jstr "" := by
  unfold jsOrEmpty
  rw [truthy_of_nullish h]
  rfl

theorem normalizeAmount_nullish {v : JVal} (h : isNullish v = true) :
    normalizeAmount v = .jstr "" := by
  unfold normalizeAmount
  rw [truthy_of_nullish h]
  rfl

theorem normalizeCurrency_nullish {v : JVal} (h : isNullish v = true) :
    normalizeCurrency v = .jstr "EUR" := by
  unfold normalizeCurrency
  rw [truthy_of_nullish h]
  rfl

theorem normalizeDate_nullish (jsDate : JVal → Option CalDate) {v : JVal}
    (h : isNullish v = true) : normalizeDate jsDate v = .jstr "" := by
  unfold normalizeDate
  rw [truthy_of_nullish h]
  rfl

theorem normalizeIBAN_nullish {v : JVal} (h : isNullish v = true) :
    normalizeIBAN v = .jstr "" := by
  unfold normalizeIBAN
  rw [truthy_of_nullish h]
  rfl

theorem normAccountType_nullish {v : JVal} (h : isNullish v = true) :
    normAccountType v = .ok (.jstr "") := by
  unfold normAccountType
  rw [truthy_of_nullish h]
  rfl

/-- C2 (amended). `normalizeFields` returns a fully populated 23-key
record and never throws, provided the `account_type` field, when truthy,
is a string; every other field may hold any JSON scalar. -/
theorem c2_normalize_fields_amended (jsDate : JVal → Option CalDate)
    (f : RawFields)
    (h : truthy f.account_type = true → ∃ s, f.account_type = .jstr s) :
    ∃ out, normalizeFields jsDate f = .ok out := by
  unfold normalizeFields
  cases hat : normAccountType f.account_type with
  | ok v => exact ⟨_, rfl⟩
  | error e =>
    exfalso
    unfold normAccountType at hat
    by_cases ht : truthy f.account_type = true
    · obtain ⟨s, hs⟩ := h ht
      rw [if_pos ht, hs] at hat
      simp at hat
    · rw [if_neg ht] at hat
      simp at hat

/-- Counterexample for C2 as frozen: a JSON boolean `true` in
`account_type` (a legal JSON field value) makes `normalizeFields` throw a
`TypeError` from `fields.account_type.toUpperCase()`. -/
theorem c2_normalize_fields_counterexample :
    normalizeFields (fun _ => none)
        { allNullFields with account_type := JVal.jbool true } =
      .error "TypeError: fields.account_type.toUpperCase is not a function" :=
  rfl

/-- Witness for C2 at the all-null response. -/
theorem c2_normalize_fields_witness :
    ∃ out, normalizeFields (fun _ => none) allNullFields = .ok out :=
  c2_normalize_fields_amended (fun _ => none) allNullFields
    (fun h => absurd h (by decide))

/-- C3 (amended). Whenever `normalizeFields` succeeds, every absent or
`null` input field maps to the empty string in the output — except
`currency`, which defaults to `"EUR"`. -/
theorem c3_null_defaults (jsDate : JVal → Option CalDate) (f : RawFields)
    (out : NormFields) (h : normalizeFields jsDate f = .ok out) :
    (isNullish f.currency = true → out.currency = .jstr "EUR") ∧
    (isNullish f.invoice_number = true → out.invoice_number = .jstr "") ∧
    (isNullish f.amount = true → out.amount = .jstr "") ∧
    (isNullish f.due_date = true → out.due_date = .jstr "") ∧
    (isNullish f.issue_date = true → out.issue_date = .jstr "") ∧
    (isNullish f.reference_number = true → out.reference_number = .jstr "") ∧
    (isNullish f.description = true → out.description = .jstr "") ∧
    (isNullish f.receiver_name = true → out.receiver_name = .jstr "") ∧
    (isNullish f.receiver_address = true → out.receiver_address = .jstr "") ∧
    (isNullish f.sender_name = true → out.sender_name = .jstr "") ∧
    (isNullish f.iban = true → out.iban = .jstr "") ∧
    (isNullish f.account_number = true → out.account_number = .jstr "") ∧
    (isNullish f.routing_number = true → out.routing_number = .jstr "") ∧
    (isNullish f.account_type = true → out.account_type = .jstr "") ∧
    (isNullish f.sort_code = true → out.sort_code = .jstr "") ∧
    (isNullish f.ifsc_code = true → out.ifsc_code = .jstr "") ∧
    (isNullish f.bsb_code = true → out.bsb_code = .jstr "") ∧
    (isNullish f.bank_code = true → out.bank_code = .jstr "") ∧
    (isNullish f.branch_code = true → out.branch_code = .jstr "") ∧
    (isNullish f.institution_number = true →
      out.institution_number = .jstr "") ∧
    (isNullish f.transit_number = true → out.transit_number = .jstr "") ∧
    (isNullish f.cnaps_code = true → out.cnaps_code = .jstr "") ∧
    (isNullish f.clabe_number = true → out.clabe_number = .jstr "") := by
  unfold normalizeFields at h
  cases hat : normAccountType f.account_type with
  | error e =>
    rw [hat] at h
    simp at h
  | ok atv =>
    rw [hat] at h
    injection h with h
    subst h
    refine ⟨fun hn => normalizeCurrency_nullish hn,
      fun hn => jsOrEmpty_nullish hn,
      fun hn => normalizeAmount_nullish hn,
      fun hn => normalizeDate_nullish jsDate hn,
      fun hn => normalizeDate_nullish jsDate hn,
      fun hn => jsOrEmpty_nullish hn,
      fun hn => jsOrEmpty_nullish hn,
      fun hn => jsOrEmpty_nullish hn,
      fun hn => jsOrEmpty_nullish hn,
      fun hn => jsOrEmpty_nullish hn,
      fun hn => normalizeIBAN_nullish hn,
      fun hn => jsOrEmpty_nullish hn,
      fun hn => jsOrEmpty_nullish hn,
      ?_,
      fun hn => jsOrEmpty_nullish hn,
      fun hn => jsOrEmpty_nullish hn,
      fun hn => jsOrEmpty_nullish hn,
      fun hn => jsOrEmpty_nullish hn,
      fun hn => jsOrEmpty_nullish hn,
      fun hn => jsOrEmpty_nullish hn,
      fun hn => jsOrEmpty_nullish hn,
      fun hn => jsOrEmpty_nullish hn,
      fun hn => jsOrEmpty_nullish hn⟩
    intro hn
    rw [normAccountType_nullish hn] at hat
    injection hat with hat
    exact hat.symm

/-- Counterexample for C3 as frozen: for the all-null response the
`currency` key normalizes to `"EUR"`, not to the empty string. -/
theorem c3_null_defaults_counterexample :
    ∃ out, normalizeFields (fun _ => none) allNullFields = Except.ok out ∧
      out.currency ≠ JVal.jstr "" := by
  refine ⟨_, rfl, ?_⟩
  decide

/-- Witness for C3 at the all-null response. -/
theorem c3_null_defaults_witness :
    ∃ out, normalizeFields (fun _ => none) allNullFields = Except.ok out ∧
      out.currency = JVal.jstr "EUR" := by
  refine ⟨_, rfl, ?_⟩
  exact (c3_null_defaults (fun _ => none) allNullFields _ rfl).1 (by decide)

/-! ## Claim C7: background message dispatch -/

/-- C7 (amended). For every registered action other than `getApiKey`, the
background listener's response is an object — a spread of the handler's
result or an error-carrying object; the `getApiKey` handler instead
responds with the raw stored key string, or `null` when unset. -/
theorem c7_dispatch_amended (action : String)
    (p pf : Except String (String × String × String))
    (ai : Except String NormFields) (key : Option String)
    (w : Except String (Nat × Nat × Nat))
    (hreg : action ∈ registeredActions) :
    (action ≠ "getApiKey" →
      ∃ resp, handleMessage action p pf ai key w = some resp ∧
        isObjectResponse resp = true) ∧
    (action = "getApiKey" →
      handleMessage action p pf ai key w =
        some (match key with
          | some k => BgResponse.rawStr k
          | none => BgResponse.rawNull)) := by
  simp only [registeredActions, List.mem_cons, List.not_mem_nil,
    or_false] at hreg
  rcases hreg with rfl | rfl | rfl | rfl | rfl | rfl
  · refine ⟨fun _ => ?_, fun hk => absurd hk (by decide)⟩
    unfold handleMessage
    rw [if_pos rfl]
    cases p with
    | ok t =>
      obtain ⟨t1, t2, t3⟩ := t
      exact ⟨_, rfl, rfl⟩
    | error e => exact ⟨_, rfl, rfl⟩
  · refine ⟨fun _ => ?_, fun hk => absurd hk (by decide)⟩
    unfold handleMessage
    rw [if_neg (by decide), if_pos rfl]
    cases pf with
    | ok t =>
      obtain ⟨t1, t2, t3⟩ := t
      exact ⟨_, rfl, rfl⟩
    | error e => exact ⟨_, rfl, rfl⟩
  · refine ⟨fun _ => ?_, fun hk => absurd hk (by decide)⟩
    unfold handleMessage
    rw [if_neg (by decide), if_neg (by decide), if_pos rfl]
    cases ai with
    | ok fs => exact ⟨_, rfl, rfl⟩
    | error e => exact ⟨_, rfl, rfl⟩
  · refine ⟨fun hne => absurd rfl hne, fun _ => ?_⟩
    unfold handleMessage
    rw [if_neg (by decide), if_neg (by decide), if_neg (by decide),
      if_pos rfl]
  · refine ⟨fun _ => ?_, fun hk => absurd hk (by decide)⟩
    unfold handleMessage
    rw [if_neg (by decide), if_neg (by decide), if_neg (by decide),
      if_neg (by decide), if_pos rfl]
    exact ⟨_, rfl, rfl⟩
  · refine ⟨fun _ => ?_, fun hk => absurd hk (by decide)⟩
    unfold handleMessage
    rw [if_neg (by decide), if_neg (by decide), if_neg (by decide),
      if_neg (by decide), if_neg (by decide), if_pos rfl]
    cases w with
    | ok t =>
      obtain ⟨t1, t2, t3⟩ := t
      exact ⟨_, rfl, rfl⟩
    | error e => exact ⟨_, rfl, rfl⟩

/-- Counterexample for C7 as frozen: the `getApiKey` handler responds
with the bare stored key string, which is neither a spread result object
nor an `{ error }` object. -/
theorem c7_dispatch_counterexample :
    handleMessage "getApiKey" (.error "") (.error "") (.error "")
        (some "sk-test") (.error "") = some (BgResponse.rawStr "sk-test") ∧
    isObjectResponse (BgResponse.rawStr "sk-test") = false :=
  ⟨rfl, rfl⟩

/-- Witness for C7 at the `processPDF` action. -/
theorem c7_dispatch_witness :
    ∃ resp, handleMessage "processPDF" (.ok ("text", "url", "ts"))
        (.error "") (.error "") none (.error "") = some resp ∧
      isObjectResponse resp = true :=
  (c7_dispatch_amended "processPDF" (.ok ("text", "url", "ts"))
    (.error "") (.error "") none (.error "") (by decide)).1 (by decide)

/-! ## Claim C6: PDF file processing below the text threshold -/

/-- C6. Evaluation at the failing input: a file with a valid `%PDF-`
header whose offscreen (PDF.js) extraction succeeds with empty text. The
flow falls back to `extractTextFromPDF`, which returns the
`{ useVisionAPI: true }` marker object rather than text, so the length
check calls `.trim` on a non-string and the handler fails with a
`TypeError` whose message does not explain that the PDF is likely
image-based. -/
theorem c6_pdf_file_processing_bug :
    handlePDFFileProcessing [0x25, 0x50, 0x44, 0x46, 0x2D] (.ok "") =
      .error "extractedText.trim is not a function" ∧
    occursIn "image-based".data
      "extractedText.trim is not a function".data = false := by
  constructor
  · rfl
  · decide

/-! ## Claim C5: heuristic recovery of a literal text object

The analysis of the left-to-right scan. `invoiceTarget` is
`'(' :: invoiceInner ++ [')']` with no `')'` inside the interior, so some
matched run always captures the interior: either the run that ends at the
target's own closing parenthesis (possibly with earlier junk glued in
front when an unmatched `'('` precedes), or a run found later in the
buffer. -/

theorem dropWhileNeNilForall {p : Char → Bool} :
    ∀ {l : List Char}, l.dropWhile p = [] → ∀ x ∈ l, p x = true := by
  intro l
  induction l with
  | nil => intro _ x hx; cases hx
  | cons c cs ih =>
    intro hd x hx
    by_cases hc : p c = true
    · rw [List.dropWhile_cons_of_pos hc] at hd
      rcases hx with _ | hx
      · exact hc
      · exact ih hd x (by assumption)
    · rw [List.dropWhile_cons_of_neg hc] at hd
      cases hd

theorem dropWhileHeadClose :
    ∀ {l : List Char} {y : Char} {tail : List Char},
      l.dropWhile (fun x => x ≠ ')') = y :: tail → y = ')' := by
  intro l
  induction l with
  | nil => intro y tail h; cases h
  | cons c cs ih =>
    intro y tail h
    rw [List.dropWhile_cons] at h
    split at h
    · exact ih h
    · next hc =>
        injection h with h1 _
        simp at hc
        rw [← h1]
        exact hc

/-- Split a list at the first occurrence of an element. -/
theorem splitFirst {x : Char} :
    ∀ {l : List Char}, x ∈ l → ∃ p1 p2, l = p1 ++ x :: p2 ∧ x ∉ p1 := by
  intro l
  induction l with
  | nil => intro h; cases h
  | cons c cs ih =>
    intro h
    by_cases hc : c = x
    · subst hc
      exact ⟨[], cs, rfl, by simp⟩
    · have hx : x ∈ cs := by
        rcases h with _ | h
        · exact absurd rfl hc
        · assumption
      obtain ⟨p1, p2, heq, hnp⟩ := ih hx
      refine ⟨c :: p1, p2, by rw [heq]; rfl, ?_⟩
      intro hmem
      rcases hmem with _ | hmem
      · exact hc rfl
      · exact hnp (by assumption)

/-- Two decompositions of a list at an element absent from both front
parts coincide. -/
theorem eqOfFirstOcc {x : Char} :
    ∀ {A C B D : List Char}, x ∉ A → x ∉ C →
      A ++ x :: B = C ++ x :: D → A = C ∧ B = D := by
  intro A
  induction A with
  | nil =>
    intro C B D _ hC h
    cases C with
    | nil =>
      injection h with _ h2
      exact ⟨rfl, h2⟩
    | cons c cs =>
      injection h with h1 _
      exact absurd (by rw [h1]; exact List.mem_cons_self c cs) hC
  | cons a as ih =>
    intro C B D hA hC h
    cases C with
    | nil =>
      injection h with h1 _
      exact absurd (by rw [← h1]; exact List.mem_cons_self a as) hA
    | cons c cs =>
      injection h with h1 h2
      have hA2 : x ∉ as := fun hm => hA (List.mem_cons_of_mem a hm)
      have hC2 : x ∉ cs := fun hm => hC (List.mem_cons_of_mem c hm)
      obtain ⟨he1, he2⟩ := ih hA2 hC2 h2
      exact ⟨by rw [h1, he1], he2⟩

theorem occursIn_self (pat : List Char) : occursIn pat pat = true :=
  (occursIn_iff _ _).mpr ⟨[], [], by simp⟩

/-- Some matched run of the scan captures the interior of the literal
text object `'(' :: inner ++ [')']`, whenever that text object occurs in
the buffer. -/
theorem scanRuns_finds (inner : List Char) (hlen : 3 ≤ inner.length)
    (hnc : (')') ∉ inner) :
    ∀ (n : Nat) (l : List Char), l.length ≤ n →
      occursIn ('(' :: inner ++ [')']) l = true →
      ∃ r ∈ scanRuns l, occursIn inner r = true := by
  intro n
  induction n with
  | zero =>
    intro l hl hocc
    have hnil : l = [] := List.length_eq_zero.mp (Nat.le_zero.mp hl)
    subst hnil
    have := occursIn_length hocc
    simp at this
  | succ n ih =>
  intro l hl hocc
  cases l with
  | nil =>
    have := occursIn_length hocc
    simp at this
  | cons c rest =>
    simp only [List.length_cons, Nat.succ_le_succ_iff] at hl
    rw [occursIn_iff] at hocc
    obtain ⟨pp, ss, heq⟩ := hocc
    simp only [List.cons_append, List.append_assoc,
      List.singleton_append] at heq
    by_cases hc : c = '('
    case neg =>
      rw [scanRuns_cons_ne rest hc]
      cases pp with
      | nil =>
        rw [List.nil_append] at heq
        injection heq with h1 _
        exact absurd h1 hc
      | cons a pp2 =>
        rw [List.cons_append] at heq
        injection heq with _ h2
        apply ih rest hl
        rw [occursIn_iff]
        exact ⟨pp2, ss, by rw [h2]; simp⟩
    case pos =>
      subst hc
      cases hdw : rest.dropWhile (fun x => x ≠ ')') with
      | nil =>
        exfalso
        have hall := dropWhileNeNilForall hdw
        have hrp : (')') ∈ rest := by
          cases pp with
          | nil =>
            rw [List.nil_append] at heq
            injection heq with _ h2
            rw [h2]
            simp
          | cons a pp2 =>
            rw [List.cons_append] at heq
            injection heq with _ h2
            rw [h2]
            simp
        have := hall _ hrp
        simp at this
      | cons y tail =>
        have hy := dropWhileHeadClose hdw
        subst hy
        have hsplit : rest = rest.takeWhile (fun x => x ≠ ')') ++
            ')' :: tail := by
          have h2 := List.takeWhile_append_dropWhile
            (fun x => decide (x ≠ ')')) rest
          rw [hdw] at h2
          exact h2.symm
        have hInc : (')') ∉ rest.takeWhile (fun x => x ≠ ')') := by
          intro hm
          have := List.mem_takeWhile_imp hm
          simp at this
        have htail_len : tail.length ≤ n := by
          have := congrArg List.length hsplit
          simp only [List.length_append, List.length_cons] at this
          omega
        cases pp with
        | nil =>
          rw [List.nil_append] at heq
          injection heq with _ h2
          obtain ⟨hIeq, _⟩ := eqOfFirstOcc hInc hnc (hsplit.symm.trans h2)
          have hIlen : 3 ≤ (rest.takeWhile (fun x => x ≠ ')')).length := by
            rw [hIeq]
            exact hlen
          rw [scanRuns_paren_run rest hdw hIlen]
          refine ⟨rest.takeWhile (fun x => x ≠ ')'),
            List.mem_cons_self _ _, ?_⟩
          rw [hIeq]
          exact occursIn_self inner
        | cons a pp2 =>
          rw [List.cons_append] at heq
          injection heq with _ h2
          by_cases hp2 : (')') ∈ pp2
          · obtain ⟨q1, q2, hq, hq1⟩ := splitFirst hp2
            have hrest2 : rest = q1 ++
                ')' :: (q2 ++ '(' :: (inner ++ ')' :: ss)) := by
              rw [h2, hq]
              simp [List.append_assoc]
            obtain ⟨_, htailq⟩ :=
              eqOfFirstOcc hInc hq1 (hsplit.symm.trans hrest2)
            have hocc_tail :
                occursIn ('(' :: inner ++ [')']) tail = true := by
              rw [htailq, occursIn_iff]
              exact ⟨q2, ss, by simp⟩
            by_cases hIlen : 3 ≤ (rest.takeWhile (fun x => x ≠ ')')).length
            · rw [scanRuns_paren_run rest hdw hIlen]
              obtain ⟨r, hr, hro⟩ := ih tail htail_len hocc_tail
              exact ⟨r, List.mem_cons_of_mem _ hr, hro⟩
            · rw [scanRuns_paren_short rest hdw hIlen]
              apply ih rest hl
              rw [occursIn_iff]
              exact ⟨pp2, ss, by rw [h2]; simp⟩
          · have hrest2 : rest = (pp2 ++ '(' :: inner) ++ ')' :: ss := by
              rw [h2]
              simp [List.append_assoc]
            have hnc2 : (')') ∉ pp2 ++ '(' :: inner := by
              intro hm
              rcases List.mem_append.mp hm with hm | hm
              · exact hp2 hm
              · rcases List.mem_cons.mp hm with hm | hm
                · cases hm
                · exact hnc hm
            obtain ⟨hIeq, _⟩ :=
              eqOfFirstOcc hInc hnc2 (hsplit.symm.trans hrest2)
            have hIlen : 3 ≤ (rest.takeWhile (fun x => x ≠ ')')).length := by
              rw [hIeq]
              simp only [List.length_append, List.length_cons]
              omega
            rw [scanRuns_paren_run rest hdw hIlen]
            refine ⟨rest.takeWhile (fun x => x ≠ ')'),
              List.mem_cons_self _ _, ?_⟩
            rw [hIeq, occursIn_iff]
            exact ⟨pp2 ++ ['('], [], by simp⟩

/-- Every character of a matched run comes from the buffer. -/
theorem scanRuns_mem_mem :
    ∀ (n : Nat) (l : List Char), l.length ≤ n →
      ∀ r ∈ scanRuns l, ∀ x ∈ r, x ∈ l := by
  intro n
  induction n with
  | zero =>
    intro l hl r hr x _
    have hnil : l = [] := List.length_eq_zero.mp (Nat.le_zero.mp hl)
    subst hnil
    rw [scanRuns_nil] at hr
    cases hr
  | succ n ih =>
  intro l hl
  cases l with
  | nil =>
    rw [scanRuns_nil]
    intro r hr
    cases hr
  | cons c rest =>
    simp only [List.length_cons, Nat.succ_le_succ_iff] at hl
    by_cases hc : c = '('
    · subst hc
      cases hdw : rest.dropWhile (fun x => x ≠ ')') with
      | nil =>
        rw [scanRuns_paren_nil rest hdw]
        intro r hr x hx
        exact List.mem_cons_of_mem _ (ih rest hl r hr x hx)
      | cons y tail =>
        have hy := dropWhileHeadClose hdw
        subst hy
        have htail_len : tail.length ≤ n := by
          have h2 := List.takeWhile_append_dropWhile
            (fun x => decide (x ≠ ')')) rest
          rw [hdw] at h2
          have := congrArg List.length h2
          simp only [List.length_append, List.length_cons] at this
          omega
        by_cases hlong : 3 ≤ (rest.takeWhile (fun x => x ≠ ')')).length
        · rw [scanRuns_paren_run rest hdw hlong]
          intro r hr x hx
          rcases List.mem_cons.mp hr with rfl | hr
          · exact List.mem_cons_of_mem _ (List.takeWhile_subset _ hx)
          · have hx2 := ih tail htail_len r hr x hx
            have hx3 : x ∈ rest.dropWhile (fun x => x ≠ ')') := by
              rw [hdw]
              exact List.mem_cons_of_mem _ hx2
            exact List.mem_cons_of_mem _ (List.dropWhile_subset _ hx3)
        · rw [scanRuns_paren_short rest hdw hlong]
          intro r hr x hx
          exact List.mem_cons_of_mem _ (ih rest hl r hr x hx)
    · rw [scanRuns_cons_ne rest hc]
      intro r hr x hx
      exact List.mem_cons_of_mem _ (ih rest hl r hr x hx)

theorem occursIn_nil_pat (l : List Char) : occursIn [] l = true := by
  cases l <;> rfl

theorem jsEsc_cons_ne (tbl : Char → Option (List Char)) {c : Char}
    (rest : List Char) (hc : c ≠ '\\') :
    jsEsc tbl (c :: rest) = c :: jsEsc tbl rest := by
  rw [jsEsc.eq_def]
  dsimp only
  rw [if_neg hc]

theorem jsEsc_bs_some (tbl : Char → Option (List Char)) {y : Char}
    {r : List Char} (rest2 : List Char) (h : tbl y = some r) :
    jsEsc tbl ('\\' :: y :: rest2) = r ++ jsEsc tbl rest2 := by
  show (match tbl y with
    | some r => r ++ jsEsc tbl rest2
    | none => '\\' :: jsEsc tbl (y :: rest2)) = r ++ jsEsc tbl rest2
  rw [h]

theorem jsEsc_bs_none (tbl : Char → Option (List Char)) {y : Char}
    (rest2 : List Char) (h : tbl y = none) :
    jsEsc tbl ('\\' :: y :: rest2) = '\\' :: jsEsc tbl (y :: rest2) := by
  show (match tbl y with
    | some r => r ++ jsEsc tbl rest2
    | none => '\\' :: jsEsc tbl (y :: rest2)) = '\\' :: jsEsc tbl (y :: rest2)
  rw [h]

/-- An escape pass copies a backslash-free block verbatim. -/
theorem jsEsc_append_clean (tbl : Char → Option (List Char))
    (A s : List Char) (hA : ('\\') ∉ A) :
    jsEsc tbl (A ++ s) = A ++ jsEsc tbl s := by
  induction A with
  | nil => rfl
  | cons a as ihA =>
    have ha : a ≠ '\\' := fun h => hA (by rw [h]; exact List.mem_cons_self _ _)
    rw [List.cons_append, jsEsc_cons_ne tbl _ ha,
      ihA (fun hm => hA (List.mem_cons_of_mem _ hm))]
    rfl

/-- An escape pass preserves every occurrence of a backslash-free pattern
whose first character the pass does not consume. -/
theorem jsEsc_preserves (tbl : Char → Option (List Char))
    (pat : List Char) (hbs : ('\\') ∉ pat)
    (hhd : ∀ c, pat.head? = some c → tbl c = none) :
    ∀ (n : Nat) (l : List Char), l.length ≤ n → occursIn pat l = true →
      occursIn pat (jsEsc tbl l) = true := by
  intro n
  induction n with
  | zero =>
    intro l hl hocc
    have hnil : l = [] := List.length_eq_zero.mp (Nat.le_zero.mp hl)
    subst hnil
    exact hocc
  | succ n ih =>
  intro l hl hocc
  rw [occursIn_iff] at hocc
  obtain ⟨pp, ss, heq⟩ := hocc
  cases pp with
  | nil =>
    rw [List.nil_append] at heq
    subst heq
    rw [jsEsc_append_clean tbl pat ss hbs]
    exact occursIn_append_left _ (occursIn_self pat)
  | cons a pp2 =>
    have heq2 : l = a :: (pp2 ++ pat ++ ss) := by
      rw [heq]
      rfl
    subst heq2
    simp only [List.length_cons, List.length_append,
      Nat.succ_le_succ_iff] at hl
    by_cases ha : a = '\\'
    · subst ha
      cases pp2 with
      | nil =>
        cases pat with
        | nil => exact occursIn_nil_pat _
        | cons p0 pt =>
          have htbl : tbl p0 = none := hhd p0 rfl
          have hgoal : ('\\' :: ([] ++ (p0 :: pt) ++ ss)) =
              '\\' :: p0 :: (pt ++ ss) := by simp
          rw [hgoal, jsEsc_bs_none tbl _ htbl]
          apply occursIn_cons
          have hsplit2 : (p0 :: (pt ++ ss)) = (p0 :: pt) ++ ss := rfl
          rw [hsplit2, jsEsc_append_clean tbl _ ss hbs]
          exact occursIn_append_left _ (occursIn_self _)
      | cons b pp3 =>
        have hgoal : ('\\' :: ((b :: pp3) ++ pat ++ ss)) =
            '\\' :: b :: (pp3 ++ pat ++ ss) := by simp
        rw [hgoal]
        cases htb : tbl b with
        | some r =>
          rw [jsEsc_bs_some tbl _ htb]
          apply occursIn_append_right
          apply ih (pp3 ++ pat ++ ss)
            (by simp only [List.length_append, List.length_cons] at hl ⊢
                omega)
          exact occursIn_of_parts pp3 ss
        | none =>
          rw [jsEsc_bs_none tbl _ htb]
          apply occursIn_cons
          apply ih (b :: (pp3 ++ pat ++ ss))
            (by simp only [List.length_append, List.length_cons] at hl ⊢
                omega)
          exact (occursIn_iff _ _).mpr ⟨b :: pp3, ss, by simp⟩
    · rw [jsEsc_cons_ne tbl _ ha]
      apply occursIn_cons
      apply ih (pp2 ++ pat ++ ss)
        (by simp only [List.length_append] at hl ⊢
            omega)
      exact occursIn_of_parts pp2 ss

/-- The chained unescaping preserves every occurrence of the invoice
interior: it contains no backslash and starts with `'I'`, which no table
consumes. -/
theorem unescapePdf_preserves_inner (t : List Char)
    (h : occursIn invoiceInner t = true) :
    occursIn invoiceInner (unescapePdf t) = true := by
  have hbs : ('\\') ∉ invoiceInner := by decide
  have hhead : invoiceInner.head? = some 'I' := rfl
  have hI : ∀ (tbl : Char → Option (List Char)), tbl 'I' = none →
      ∀ c, invoiceInner.head? = some c → tbl c = none := by
    intro tbl htbl c hc
    rw [hhead] at hc
    injection hc with hc
    rw [← hc]
    exact htbl
  unfold unescapePdf
  apply jsEsc_preserves escParenTable invoiceInner hbs
    (hI _ (by decide)) _ _ le_rfl
  apply jsEsc_preserves (escTable '\\' ['\\']) invoiceInner hbs
    (hI _ (by decide)) _ _ le_rfl
  apply jsEsc_preserves (escTable 't' [' ']) invoiceInner hbs
    (hI _ (by decide)) _ _ le_rfl
  apply jsEsc_preserves (escTable 'r' [' ']) invoiceInner hbs
    (hI _ (by decide)) _ _ le_rfl
  apply jsEsc_preserves (escTable 'n' [' ']) invoiceInner hbs
    (hI _ (by decide)) _ _ le_rfl
  exact h

/-- The accumulation loop preserves an occurrence contributed by any
surviving run. -/
theorem occursIn_joinRuns {r : List Char} :
    ∀ {ts : List (List Char)}, r ∈ ts →
      occursIn invoiceInner (unescapePdf r) = true →
      occursIn invoiceInner (joinRuns ts) = true := by
  intro ts
  induction ts with
  | nil => intro hr; cases hr
  | cons t ts iht =>
    intro hr ho
    rcases List.mem_cons.mp hr with rfl | hr
    · exact occursIn_append_left _ ho
    · exact occursIn_append_right _ (occursIn_cons _ (iht hr ho))

/-- Trimming preserves the occurrence: the interior starts with `'I'` and
ends with `'0'`, neither of which is whitespace. -/
theorem occursIn_trimL_inner {l : List Char}
    (h : occursIn invoiceInner l = true) :
    occursIn invoiceInner (trimL l) = true := by
  unfold trimL trimLeadL
  have hfwd : invoiceInner = 'I' :: "nvoice Total 120.00".data := rfl
  have h1 : occursIn invoiceInner (l.dropWhile jsWs) = true := by
    rw [hfwd] at h ⊢
    exact occursIn_dropWhile_ws (by decide) h
  have h2 := occursIn_reverse h1
  have hrev : invoiceInner.reverse = '0' :: "0.021 latoT eciovnI".data := by
    decide
  have h3 : occursIn invoiceInner.reverse
      ((l.dropWhile jsWs).reverse.dropWhile jsWs) = true := by
    rw [hrev] at h2 ⊢
    exact occursIn_dropWhile_ws (by decide) h2
  have h4 := occursIn_reverse h3
  simpa using h4

/-- C5 (amended). On any byte buffer that contains the literal PDF text
object `(Invoice Total 120.00)` and no control byte of the filtered class
(0x00–0x08, 0x0B, 0x0C, 0x0E–0x1F), the heuristic recovery yields text
containing the substring `Invoice Total 120.00`. -/
theorem c5_heuristic_recovery_amended (buf : List Char)
    (hbytes : ∀ c ∈ buf, c.toNat < 256)
    (hclean : ∀ c ∈ buf, isPdfCtrl c = false)
    (hocc : occursIn invoiceTarget buf = true) :
    occursIn invoiceInner (pdfHeuristicText buf) = true := by
  have htgt : invoiceTarget = '(' :: invoiceInner ++ [')'] := rfl
  rw [htgt] at hocc
  obtain ⟨r, hr, hro⟩ := scanRuns_finds invoiceInner (by decide) (by decide)
    buf.length buf le_rfl hocc
  have hkeep : keepRun r = true := by
    unfold keepRun
    have hlen := occursIn_length hro
    have hinner : invoiceInner.length = 20 := rfl
    have hctrl : r.any isPdfCtrl = false := by
      cases hca : r.any isPdfCtrl
      · rfl
      · exfalso
        rw [List.any_eq_true] at hca
        obtain ⟨x, hx, hpx⟩ := hca
        have hxbuf := scanRuns_mem_mem buf.length buf le_rfl r hr x hx
        rw [hclean x hxbuf] at hpx
        cases hpx
    rw [hctrl]
    simp only [Bool.not_false, Bool.and_eq_true, decide_eq_true_eq,
      and_true]
    omega
  have hfilter : r ∈ (scanRuns buf).filter keepRun :=
    List.mem_filter.mpr ⟨hr, hkeep⟩
  unfold pdfHeuristicText
  apply occursIn_trimL_inner
  exact occursIn_joinRuns hfilter (unescapePdf_preserves_inner r hro)

/-- Witness for C5 on a concrete clean buffer. -/
theorem c5_heuristic_recovery_witness :
    occursIn invoiceInner
      (pdfHeuristicText
        "see attached (Invoice Total 120.00) thanks".data) = true :=
  c5_heuristic_recovery_amended _ (by decide) (by decide) (by decide)

/-- Counterexample for C5 as frozen: a buffer containing the literal text
object, preceded by an unmatched `'('` and a control byte. The scan's
greedy run swallows the text object into a control-character run, which
the filter discards, so the recovered text is empty. -/
theorem c5_heuristic_recovery_counterexample :
    (∀ c ∈ "(\x01ab(Invoice Total 120.00)".data, c.toNat < 256) ∧
    occursIn invoiceTarget "(\x01ab(Invoice Total 120.00)".data = true ∧
    occursIn invoiceInner
      (pdfHeuristicText "(\x01ab(Invoice Total 120.00)".data) = false := by
  refine ⟨by decide, by decide, by decide⟩

end WiseSpec
